import Mathlib

/-!
Verification of the ibclientpy order/bracket bookkeeping, request-id
allocation, open-orders query plumbing, tick routing and historical
request planning, as a shallow embedding of the Python sources
(src/client.py, src/client_adapter.py, src/order_handler.py,
src/historical_data.py, src/historical_downloader.py, src/config.py).

Python dictionaries keyed by integers or strings are embedded as
functions into Option; insertion-ordered value collections are lists.
Python floats used for prices, offsets and bar counts are embedded as
rationals (all arithmetic performed on them in the embedded code is
exact on the values that arise).
-/

namespace IbClient

/-- Dictionary update: d[k] = v for an Int-keyed Python dict. -/
def mapUpdate {α : Type} (m : Int → Option α) (k : Int) (v : α) : Int → Option α :=
  fun i => if i = k then some v else m i

/-- Dictionary removal: d.pop(k) for an Int-keyed Python dict. -/
def mapErase {α : Type} (m : Int → Option α) (k : Int) : Int → Option α :=
  fun i => if i = k then none else m i

/-- Dictionary update for a String-keyed Python dict. -/
def strUpdate {α : Type} (m : String → Option α) (k : String) (v : α) :
    String → Option α :=
  fun i => if i = k then some v else m i

/-- ibapipy.data.contract.Contract, restricted to the attributes the
embedded code reads. -/
structure Contract where
  sec_type : String := ""
  symbol : String := ""
  currency : String := ""
  exchange : String := ""
  local_symbol : String := ""
deriving DecidableEq, Repr

/-- ibapipy.data.order.Order, restricted to the attributes the embedded
code reads or writes.  Unused constructor arguments default to the
zero-like values ibapipy assigns. -/
structure Order where
  action : String := ""
  total_quantity : ℚ := 0
  order_type : String := ""
  lmt_price : ℚ := 0
  aux_price : ℚ := 0
  order_id : Int := 0
  perm_id : Int := 0
  status : String := ""
  avg_fill_price : ℚ := 0
  oca_group : String := ""
  oca_type : Int := 0
  tif : String := ""
deriving DecidableEq, Repr

/-- Combined client/order-handler state touched by the bracket logic:
Client.next_id, Client.id_contracts, OrderHandler.bracket_parms,
OrderHandler.child_orders, OrderHandler.parent_orders, plus the list of
orders handed to adapter.place_order (in call order). -/
structure BracketState where
  next_id : Int
  id_contracts : Int → Option Contract
  bracket_parms : Int → Option (ℚ × ℚ)
  child_orders : Int → Option (List Int)
  parent_orders : Int → Option Int
  placed : List (Int × Contract × Order)

/-- Client.place_order (src/client.py lines 449-473): allocate a request
id, record the contract and the bracket offsets, and pass the order to
the adapter; returns the request id. -/
def place_order (s : BracketState) (contract : Contract) (order : Order)
    (profit_offset loss_offset : ℚ) : Int × BracketState :=
  let req_id := s.next_id
  (req_id,
    { s with
      next_id := s.next_id + 1
      id_contracts := mapUpdate s.id_contracts req_id contract
      bracket_parms := mapUpdate s.bracket_parms req_id (profit_offset, loss_offset)
      placed := s.placed ++ [(req_id, contract, order)] })

/-- OrderHandler.__add_relation__ (src/order_handler.py lines 37-50). -/
def add_relation (s : BracketState) (parent_id child_id : Int) : BracketState :=
  let existing := (s.child_orders parent_id).getD []
  let children := if child_id ∈ existing then existing else existing ++ [child_id]
  { s with
    child_orders := mapUpdate s.child_orders parent_id children
    parent_orders := mapUpdate s.parent_orders child_id parent_id }

/-- OrderHandler.update_brackets (src/order_handler.py lines 99-141):
place a take profit (limit) and stop loss (stop) around the parent
order fill price.  The child orders are placed through
Client.place_order with both offsets left at their default 0.
Client.__update_brackets__ (src/client.py lines 112-153) computes the
same guards, actions and prices. -/
def update_brackets (s : BracketState) (parent : Order) : BracketState :=
  match s.bracket_parms parent.order_id with
  | none => s
  | some (profit_offset, loss_offset) =>
    match s.id_contracts parent.order_id with
    | none => s
    | some contract =>
      if parent.status ≠ "filled" ∨ parent.avg_fill_price = 0 then s
      else
        let action := if parent.action = "buy" then "sell" else "buy"
        let direction : ℚ := if parent.action = "buy" then 1 else -1
        let s1 := { s with bracket_parms := mapErase s.bracket_parms parent.order_id }
        let oca_group := toString parent.perm_id
        let s2 :=
          if profit_offset ≠ 0 then
            let limit_price := parent.avg_fill_price + |profit_offset| * direction
            let profit_order : Order :=
              { action := action, total_quantity := parent.total_quantity,
                order_type := "lmt", lmt_price := limit_price,
                oca_group := oca_group, oca_type := 2, tif := "gtc" }
            let pr := place_order s1 contract profit_order 0 0
            add_relation pr.2 parent.order_id pr.1
          else s1
        if loss_offset ≠ 0 then
          let stop_price := parent.avg_fill_price - |loss_offset| * direction
          let loss_order : Order :=
            { action := action, total_quantity := parent.total_quantity,
              order_type := "stp", aux_price := stop_price,
              oca_group := oca_group, oca_type := 2, tif := "gtc" }
          let lr := place_order s2 contract loss_order 0 0
          add_relation lr.2 parent.order_id lr.1
        else s2

/-- The orders newly handed to the transport by one update_brackets call. -/
def placedAfter (s : BracketState) (parent : Order) : List (Int × Contract × Order) :=
  (update_brackets s parent).placed.drop s.placed.length

/-- The action update_brackets assigns to both children. -/
def oppositeAction (a : String) : String := if a = "buy" then "sell" else "buy"

/-- The profit (limit) child update_brackets builds, at a given limit price. -/
def profitChild (parent : Order) (price : ℚ) : Order :=
  { action := oppositeAction parent.action, total_quantity := parent.total_quantity,
    order_type := "lmt", lmt_price := price,
    oca_group := toString parent.perm_id, oca_type := 2, tif := "gtc" }

/-- The loss (stop) child update_brackets builds, at a given stop price. -/
def lossChild (parent : Order) (price : ℚ) : Order :=
  { action := oppositeAction parent.action, total_quantity := parent.total_quantity,
    order_type := "stp", aux_price := price,
    oca_group := toString parent.perm_id, oca_type := 2, tif := "gtc" }

/-- Concrete bracket state used to exercise the bracket theorems: one
parent order with id 1, offsets (5, 3), a recorded contract, and a
fresh-id counter ahead of all recorded ids. -/
def wS : BracketState :=
  { next_id := 10
    id_contracts := fun i => if i = 1 then some { symbol := "eur", currency := "usd" } else none
    bracket_parms := fun i => if i = 1 then some (5, 3) else none
    child_orders := fun _ => none
    parent_orders := fun _ => none
    placed := [] }

/-- Concrete filled buy parent order used to exercise the bracket theorems. -/
def wParent : Order :=
  { action := "buy", total_quantity := 100, order_type := "mkt", order_id := 1,
    perm_id := 77, status := "filled", avg_fill_price := 100 }

/-- Concrete contract recorded for order id 1 in wS. -/
def wContract : Contract := { symbol := "eur", currency := "usd" }

/-- Client.__get_req_id__ (src/client.py lines 101-110): return the
current counter value and increment it (the lock makes the pair
atomic; the embedding is the sequential body). -/
def get_req_id (next_id : Int) : Int × Int := (next_id, next_id + 1)

/-- The ids returned by n successive __get_req_id__ calls starting from
a given counter value. -/
def allocIds (next_id : Int) : Nat → List Int
  | 0 => []
  | n + 1 => (get_req_id next_id).1 :: allocIds (get_req_id next_id).2 n

/-- Events touching the request-id counter: an allocation through
__get_req_id__, or a next-valid-id report handled by Client.on_next_id
(src/client.py lines 188-197). -/
inductive IdEvent where
  | alloc : IdEvent
  | nextValidId : Int → IdEvent
deriving DecidableEq, Repr

/-- One step of the id-counter state (counter value, ids issued so
far): alloc issues the counter value and increments; a next-valid-id
report sets the counter to max(counter, reported). -/
def idStep : Int × List Int → IdEvent → Int × List Int
  | (n, issued), .alloc => (n + 1, issued ++ [n])
  | (n, issued), .nextValidId r => (max n r, issued)

/-- Run a sequence of id-counter events. -/
def runIds (s : Int × List Int) : List IdEvent → Int × List Int
  | [] => s
  | e :: evs => runIds (idStep s e) evs

/-- An asyncio Future cell holding an Int: none is "no future",
some none is a pending future, some (some r) is a future resolved with
r. -/
abbrev FutureCell := Option (Option Int)

/-- is_future_valid (src/client_adapter.py lines 387-395): the future
is not None and not done. -/
def is_future_valid (future : FutureCell) : Bool :=
  match future with
  | some none => true
  | _ => false

/-- ClientAdapter.next_valid_id (src/client_adapter.py lines 183-187):
resolve next_valid_id_fut with the reported id only when the future
exists and is not yet done.  The second component collects diagnostics
the handler emits (raised errors or log records); the source emits
none on any path. -/
def next_valid_id (fut : FutureCell) (req_id : Int) : FutureCell × List String :=
  if is_future_valid fut then (some (some req_id), [])
  else (fut, [])

/-- Client/adapter state touched by a tick subscription request:
Client.next_id, callback registrations by key, Client.callback_ids,
Client.id_contracts, ClientAdapter.market_data_ids keyed by
"symbol.currency", the request ids holding a tick queue, and the
request ids sent to the remote ClientSocket.req_mkt_data (in call
order). -/
structure TickSubState where
  next_id : Int
  callbacks : String → List Nat
  callback_ids : String → Option Int
  id_contracts : Int → Option Contract
  market_data_ids : String → Option Int
  tick_queue_ids : List Int
  remote_mkt_data_calls : List Int

/-- get_key for a tick subscription (src/client.py lines 599-616 with
method_name "tick" and no account). -/
def tick_key (c : Contract) : String := "tick" ++ c.symbol ++ c.currency

/-- The "symbol.currency" key of ClientAdapter.market_data_ids. -/
def mdKey (c : Contract) : String := c.symbol ++ "." ++ c.currency

/-- ClientAdapter.req_mkt_data (src/client_adapter.py lines 120-127):
record the request id under the instrument key, create the incoming
tick queue, and forward the subscription to the remote socket. -/
def req_mkt_data (s : TickSubState) (req_id : Int) (c : Contract) : TickSubState :=
  { s with
    market_data_ids := strUpdate s.market_data_ids (mdKey c) req_id
    tick_queue_ids := s.tick_queue_ids ++ [req_id]
    remote_mkt_data_calls := s.remote_mkt_data_calls ++ [req_id] }

/-- Client.req_tick_updates (src/client.py lines 542-555): allocate a
request id, register the callback (by token) for the tick key, record
the contract and call the adapter.  Returns the allocated id and the
new state. -/
def req_tick_updates (s : TickSubState) (c : Contract) (callback : Nat) :
    Int × TickSubState :=
  let key := tick_key c
  let req_id := s.next_id
  let s1 := { s with next_id := s.next_id + 1 }
  let existing := s1.callbacks key
  let s2 :=
    { s1 with
      callbacks := fun k =>
        if k = key then (if callback ∈ existing then existing else existing ++ [callback])
        else s1.callbacks k
      callback_ids := strUpdate s1.callback_ids key req_id
      id_contracts := mapUpdate s1.id_contracts req_id c }
  (req_id, req_mkt_data s2 req_id c)

/-- An empty client state with the id counter at 0, used to exercise
the tick-subscription theorems. -/
def tickSubInit : TickSubState :=
  { next_id := 0, callbacks := fun _ => [], callback_ids := fun _ => none,
    id_contracts := fun _ => none, market_data_ids := fun _ => none,
    tick_queue_ids := [], remote_mkt_data_calls := [] }

/-- The EUR/USD contract used in the repository tests. -/
def eurusd : Contract :=
  { sec_type := "cash", symbol := "eur", currency := "usd", exchange := "idealpro" }

/-- ibapipy.data.tick.Tick, restricted to the attributes the adapter
reads/writes. -/
structure Tick where
  milliseconds : Int := 0
  bid : ℚ := 0
  ask : ℚ := 0
  bid_size : ℚ := 0
  ask_size : ℚ := 0
  volume : ℚ := 0
deriving DecidableEq, Repr

/-- The per-instrument merged snapshot together with the per-request
delivery queue (ticks pushed to tick_queue[req_id], in order). -/
structure TickMergeState where
  tick : Tick
  queue : List Tick

/-- ClientAdapter.tick_price (src/client_adapter.py lines 250-266):
update bid (tick type 1) or ask (tick type 2) on the snapshot, zero the
volume, and push a copy downstream only when bid > 0 and ask > bid.
The wall-clock value ds.now() is passed in as the event time. -/
def tick_price (st : TickMergeState) (tick_type : Nat) (price : ℚ) (now : Int) :
    TickMergeState :=
  let t0 := { st.tick with volume := 0 }
  let t1 :=
    if tick_type = 1 then { t0 with milliseconds := now, bid := price }
    else if tick_type = 2 then { t0 with milliseconds := now, ask := price }
    else t0
  if t1.bid > 0 ∧ t1.ask > t1.bid then { tick := t1, queue := st.queue ++ [t1] }
  else { tick := t1, queue := st.queue }

/-- ClientAdapter.tick_size (src/client_adapter.py lines 268-284):
update bid size (type 0), ask size (type 3) or volume (type 8) on the
snapshot; nothing is pushed downstream. -/
def tick_size (st : TickMergeState) (tick_type : Nat) (size : ℚ) (now : Int) :
    TickMergeState :=
  let t0 := { st.tick with volume := 0 }
  let t1 :=
    if tick_type = 0 then { t0 with milliseconds := now, bid_size := size }
    else if tick_type = 3 then { t0 with milliseconds := now, ask_size := size }
    else if tick_type = 8 then { t0 with milliseconds := now, volume := size }
    else t0
  { tick := t1, queue := st.queue }

/-- An incoming market-data event for one request id: a price event or
a size event, with its tick type, value and arrival time. -/
inductive MdEvent where
  | price : Nat → ℚ → Int → MdEvent
  | size : Nat → ℚ → Int → MdEvent
deriving DecidableEq, Repr

/-- Dispatch one incoming market-data event to its handler. -/
def mdStep (st : TickMergeState) : MdEvent → TickMergeState
  | .price tt p now => tick_price st tt p now
  | .size tt v now => tick_size st tt v now

/-- Run a sequence of incoming market-data events. -/
def runMd (st : TickMergeState) : List MdEvent → TickMergeState
  | [] => st
  | e :: evs => runMd (mdStep st e) evs

/-- The adapter state that drives completion of an open-orders query:
the request ids present in order_handler.orders, the open_order_ids
tracking dict (insertion-ordered), the open_order_end_called flag, and
whether the orders future and the executions future have been
resolved.  The query starts with both futures created and pending,
open_order_ids cleared and open_order_end_called reset
(ClientAdapter.req_all_open_orders, src/client_adapter.py lines
81-85). -/
structure QueryState where
  knownOrders : List Int
  openOrderIds : List (Int × Bool)
  openOrderEndCalled : Bool
  ordersResolved : Bool
  execsResolved : Bool
deriving DecidableEq, Repr

/-- Python dict assignment d[k] = v on an insertion-ordered
association list: update in place when the key exists, else append. -/
def alistSet (l : List (Int × Bool)) (k : Int) (v : Bool) : List (Int × Bool) :=
  if l.any (fun p => p.1 = k) then l.map (fun p => if p.1 = k then (k, v) else p)
  else l ++ [(k, v)]

/-- "False not in self.open_order_ids.values()". -/
def allStatusesFinal (l : List (Int × Bool)) : Bool := l.all (fun p => p.2)

/-- ClientAdapter.open_order (src/client_adapter.py lines 189-198):
record the order under its request id and enter the id into the
open-order tracking dict with False unless already present. -/
def open_order (st : QueryState) (req_id : Int) : QueryState :=
  let st1 :=
    { st with
      knownOrders :=
        if req_id ∈ st.knownOrders then st.knownOrders else st.knownOrders ++ [req_id] }
  if st1.openOrderIds.any (fun p => p.1 = req_id) then st1
  else { st1 with openOrderIds := st1.openOrderIds ++ [(req_id, false)] }

/-- ClientAdapter.open_order_end (src/client_adapter.py lines 200-202). -/
def open_order_end (st : QueryState) : QueryState :=
  { st with openOrderEndCalled := true }

/-- ClientAdapter.order_status (src/client_adapter.py lines 204-248),
restricted to the fields driving query completion: mark the request id
with "status is not apipending", return early when the order is
unknown, and otherwise resolve the orders future when every tracked id
is marked final, open_order_end has been called, and the future is
still pending. -/
def order_status (st : QueryState) (req_id : Int) (status : String) : QueryState :=
  let m := alistSet st.openOrderIds req_id (status != "apipending")
  let st1 := { st with openOrderIds := m }
  if req_id ∉ st1.knownOrders then st1
  else if allStatusesFinal m ∧ st1.openOrderEndCalled ∧ ¬st1.ordersResolved then
    { st1 with ordersResolved := true }
  else st1

/-- ClientAdapter.exec_details_end (src/client_adapter.py lines
155-159): resolve the executions future when it is pending. -/
def exec_details_end (st : QueryState) : QueryState :=
  if ¬st.execsResolved then { st with execsResolved := true } else st

/-- The inbound events that can arrive during an open-orders query. -/
inductive QEvent where
  | openOrder : Int → QEvent
  | openOrderEnd : QEvent
  | orderStatus : Int → String → QEvent
  | execDetailsEnd : QEvent
deriving DecidableEq, Repr

/-- Dispatch one inbound event to its adapter handler. -/
def qStep (st : QueryState) : QEvent → QueryState
  | .openOrder rid => open_order st rid
  | .openOrderEnd => open_order_end st
  | .orderStatus rid status => order_status st rid status
  | .execDetailsEnd => exec_details_end st

/-- Run a sequence of inbound events. -/
def runQ (st : QueryState) : List QEvent → QueryState
  | [] => st
  | e :: evs => runQ (qStep st e) evs

/-- The state at the start of an open-orders query: req_all_open_orders
has cleared open_order_ids and reset open_order_end_called, both
futures are fresh, and the order store holds whatever ids preceded the
query. -/
def queryStart (knownOrders : List Int) : QueryState :=
  { knownOrders := knownOrders, openOrderIds := [], openOrderEndCalled := false,
    ordersResolved := false, execsResolved := false }

/-- Modelled from the spec: the caller-facing listOpenOrders operation
(the coroutine client revision that awaits the adapter futures is not
in src, only the adapter handlers and the tests are).  Per the spec it
suspends on both completions, so the query is complete exactly when the
orders future and the executions future have both been resolved. -/
def queryComplete (st : QueryState) : Prop :=
  st.ordersResolved = true ∧ st.execsResolved = true

/-- A concrete event arrival order exercising the open-orders query:
the end-of-executions marker arrives first, then an order opens, then
the end-of-open-orders marker, then the final status. -/
def wQEvents : List QEvent :=
  [QEvent.execDetailsEnd, QEvent.openOrder 1, QEvent.openOrderEnd,
   QEvent.orderStatus 1 "filled"]

/-- config.BAR_SIZE_SECONDS (src/config.py line 23). -/
def BAR_SIZE_SECONDS : ℚ := 1

/-- config.MAX_BLOCK_SIZE (src/config.py line 43), the maximum number
of bars for each request. -/
def MAX_BLOCK_SIZE : ℚ := 1800

/-- Number of milliseconds in a day (src/historical_data.py line 11). -/
def DAY_MS : Int := 86400000

/-- The day-enumeration loop of create_bar_data
(src/historical_data.py lines 39-47, identical in
src/historical_downloader.py lines 113-121): step through the range a
day at a time and keep the (first_ms, last_ms) span when the weekday of
the span end is Monday through Friday.  The weekday function abstracts
ds.ms_to_datetime(last_ms, timezone).weekday(), Monday = 0. -/
def enumDays (weekday : Int → Nat) (end_ms : Int) (first_ms last_ms : Int) :
    List (Int × Int) :=
  if h : first_ms < end_ms then
    (if weekday last_ms < 5 then [(first_ms, last_ms)] else []) ++
      enumDays weekday end_ms (first_ms + DAY_MS) (last_ms + DAY_MS)
  else []
termination_by (end_ms - first_ms).toNat
decreasing_by simp only [DAY_MS]; omega

/-- The block-cutting loop of create_bar_data
(src/historical_data.py lines 50-59): cut one day span, starting at
the day start, into consecutive blocks of at most MAX_BLOCK_SIZE bars;
each block is recorded as (block end in ms, bar count). -/
def cutDay (last_ms : Int) (total_bars : ℚ) : List (Int × ℚ) :=
  if h : 0 < total_bars then
    (last_ms + ⌊min total_bars MAX_BLOCK_SIZE * BAR_SIZE_SECONDS * 1000⌋,
      min total_bars MAX_BLOCK_SIZE) ::
      cutDay (last_ms + ⌊min total_bars MAX_BLOCK_SIZE * BAR_SIZE_SECONDS * 1000⌋)
        (total_bars - MAX_BLOCK_SIZE)
  else []
termination_by (⌈total_bars⌉).toNat
decreasing_by
  have h2 : (⌈total_bars - MAX_BLOCK_SIZE⌉ : Int) = ⌈total_bars⌉ - 1800 := by
    simp only [MAX_BLOCK_SIZE]
    rw [show ((1800 : ℚ)) = ((1800 : ℤ) : ℚ) by norm_num, Int.ceil_sub_int]
  have h3 : 0 < (⌈total_bars⌉ : Int) := Int.ceil_pos.mpr h
  omega

/-- create_bar_data (src/historical_data.py lines 14-60): the list of
(request end time, bar count) blocks for a historical range.  The
civil-time endpoints are taken after the string/timezone conversion:
start_ms and end_ms are the converted session start on the start date
and session end on the end date, and span_min is the session length
(max_hour * 60 + max_minute) - (min_hour * 60 + min_minute). -/
def create_bar_data (weekday : Int → Nat) (start_ms end_ms : Int) (span_min : Int) :
    List (Int × ℚ) :=
  let span_ms := span_min * 60 * 1000
  let days := enumDays weekday end_ms start_ms (start_ms + span_ms)
  days.flatMap fun day =>
    cutDay day.1 ((((day.2 - day.1 : Int) : ℚ) / 1000) / BAR_SIZE_SECONDS)

-- *************************************************************************
-- Theorems
-- *************************************************************************

/-- Helper for C1: the orders handed to the transport by one
update_brackets call whose guards all pass, with the prices as the code
computes them (offset magnitude times direction). -/
theorem update_brackets_placed
    (s : BracketState) (parent : Order) (contract : Contract) (po lo : ℚ)
    (hb : s.bracket_parms parent.order_id = some (po, lo))
    (hc : s.id_contracts parent.order_id = some contract)
    (hst : parent.status = "filled")
    (hfp : parent.avg_fill_price ≠ 0) :
    (update_brackets s parent).placed =
      (s.placed ++
        (if po = 0 then [] else
          [(s.next_id, contract,
            profitChild parent
              (parent.avg_fill_price + |po| * (if parent.action = "buy" then 1 else -1)))])) ++
        (if lo = 0 then [] else
          [((if po = 0 then s.next_id else s.next_id + 1), contract,
            lossChild parent
              (parent.avg_fill_price - |lo| * (if parent.action = "buy" then 1 else -1)))]) := by
  have hguard : ¬(parent.status ≠ "filled" ∨ parent.avg_fill_price = 0) := by
    simp [hst, hfp]
  rcases eq_or_ne po 0 with hpo | hpo <;> rcases eq_or_ne lo 0 with hlo | hlo <;>
    simp [update_brackets, hb, hc, hguard, hpo, hlo, place_order, add_relation,
      profitChild, lossChild, oppositeAction]

/-- C1: for a parent whose status is filled with nonzero average fill
price and recorded offsets (po, lo): a buy parent yields a limit child
at avgFillPrice + |po| and a stop child at avgFillPrice - |lo|; a sell
parent yields the limit child at avgFillPrice - |po| and the stop child
at avgFillPrice + |lo|; a zero offset yields no corresponding child;
every child carries the opposite action. -/
theorem bracket_child_prices
    (s : BracketState) (parent : Order) (contract : Contract) (po lo : ℚ)
    (hb : s.bracket_parms parent.order_id = some (po, lo))
    (hc : s.id_contracts parent.order_id = some contract)
    (hst : parent.status = "filled")
    (hfp : parent.avg_fill_price ≠ 0) :
    (parent.action = "buy" →
      (placedAfter s parent).map (fun t => t.2.2) =
        (if po = 0 then [] else [profitChild parent (parent.avg_fill_price + |po|)]) ++
        (if lo = 0 then [] else [lossChild parent (parent.avg_fill_price - |lo|)])) ∧
    (parent.action = "sell" →
      (placedAfter s parent).map (fun t => t.2.2) =
        (if po = 0 then [] else [profitChild parent (parent.avg_fill_price - |po|)]) ++
        (if lo = 0 then [] else [lossChild parent (parent.avg_fill_price + |lo|)])) ∧
    (∀ t ∈ placedAfter s parent, t.2.2.action = oppositeAction parent.action) := by
  have hplaced := update_brackets_placed s parent contract po lo hb hc hst hfp
  have hdrop : placedAfter s parent =
      (if po = 0 then [] else
        [(s.next_id, contract,
          profitChild parent
            (parent.avg_fill_price + |po| * (if parent.action = "buy" then 1 else -1)))]) ++
      (if lo = 0 then [] else
        [((if po = 0 then s.next_id else s.next_id + 1), contract,
          lossChild parent
            (parent.avg_fill_price - |lo| * (if parent.action = "buy" then 1 else -1)))]) := by
    rw [placedAfter, hplaced, List.append_assoc, List.drop_left]
  refine ⟨fun ha => ?_, fun ha => ?_, fun t ht => ?_⟩
  · rw [hdrop]
    rcases eq_or_ne po 0 with hpo | hpo <;> rcases eq_or_ne lo 0 with hlo | hlo <;>
      simp [ha, hpo, hlo]
  · have hne : parent.action ≠ "buy" := by rw [ha]; decide
    rw [hdrop]
    rcases eq_or_ne po 0 with hpo | hpo <;> rcases eq_or_ne lo 0 with hlo | hlo <;>
      simp [hne, hpo, hlo, sub_eq_add_neg]
  · rw [hdrop] at ht
    rcases List.mem_append.mp ht with hx | hx <;> split at hx <;>
      simp at hx <;> rw [hx] <;> rfl

/-- Witness for C1 at the concrete buy parent filling at 100 with
offsets (5, 3): the limit child is priced 105, the stop child 97. -/
theorem bracket_child_prices_witness :
    (placedAfter wS wParent).map (fun t => t.2.2) =
      [profitChild wParent 105, lossChild wParent 97] := by
  have h := (bracket_child_prices wS wParent wContract 5 3 (by decide) (by decide)
    (by decide) (by decide)).1 (by decide)
  norm_num [wParent] at h
  simpa [wParent] using h

/-- Helper for C2: the pending offsets of the parent are gone after a
consuming update_brackets call, provided the parent id predates the
fresh-id counter (child ids are allocated at or above next_id, so they
cannot alias the parent id). -/
theorem update_brackets_consumes
    (s : BracketState) (parent : Order) (contract : Contract) (po lo : ℚ)
    (hb : s.bracket_parms parent.order_id = some (po, lo))
    (hc : s.id_contracts parent.order_id = some contract)
    (hst : parent.status = "filled")
    (hfp : parent.avg_fill_price ≠ 0)
    (hid : parent.order_id < s.next_id) :
    (update_brackets s parent).bracket_parms parent.order_id = none := by
  have hguard : ¬(parent.status ≠ "filled" ∨ parent.avg_fill_price = 0) := by
    simp [hst, hfp]
  have h1 : parent.order_id ≠ s.next_id := by omega
  have h2 : parent.order_id ≠ s.next_id + 1 := by omega
  rcases eq_or_ne po 0 with hpo | hpo <;> rcases eq_or_ne lo 0 with hlo | hlo <;>
    simp [update_brackets, hb, hc, hguard, hpo, hlo, place_order, add_relation,
      mapUpdate, mapErase, h1, h2]

/-- C2: a consuming invocation of the bracket logic removes the
recorded offset pair for the parent in the same step, and a redelivered
filled event for the same parent afterwards is a complete no-op (no
child orders placed, every map left unchanged). -/
theorem bracket_placed_at_most_once
    (s : BracketState) (parent : Order) (contract : Contract) (po lo : ℚ)
    (hb : s.bracket_parms parent.order_id = some (po, lo))
    (hc : s.id_contracts parent.order_id = some contract)
    (hst : parent.status = "filled")
    (hfp : parent.avg_fill_price ≠ 0)
    (hid : parent.order_id < s.next_id) :
    (update_brackets s parent).bracket_parms parent.order_id = none ∧
    update_brackets (update_brackets s parent) parent = update_brackets s parent := by
  have hn := update_brackets_consumes s parent contract po lo hb hc hst hfp hid
  refine ⟨hn, ?_⟩
  conv_lhs => rw [update_brackets.eq_def]
  rw [hn]

/-- Witness for C2 at the concrete consuming state: both conjuncts at
wS and wParent. -/
theorem bracket_placed_at_most_once_witness :
    (update_brackets wS wParent).bracket_parms wParent.order_id = none ∧
    update_brackets (update_brackets wS wParent) wParent = update_brackets wS wParent :=
  bracket_placed_at_most_once wS wParent wContract 5 3 (by decide) (by decide)
    (by decide) (by decide) (by decide)

/-- C9: if the order is not filled, or its average fill price is 0, or
no bracket offsets are recorded for it, the bracket logic returns the
state unchanged: no children are placed and the pending-bracket,
child-order and parent-order maps are untouched. -/
theorem update_brackets_noop (s : BracketState) (parent : Order)
    (h : parent.status ≠ "filled" ∨ parent.avg_fill_price = 0 ∨
         s.bracket_parms parent.order_id = none) :
    update_brackets s parent = s := by
  unfold update_brackets
  split
  · rfl
  · rename_i po lo heq
    split
    · rfl
    · rename_i contract heqc
      rw [if_pos]
      rcases h with h | h | h
      · exact Or.inl h
      · exact Or.inr h
      · rw [h] at heq; cases heq

/-- Witness for C9: a submitted (not filled) parent leaves the state
unchanged. -/
theorem update_brackets_noop_witness :
    update_brackets wS { wParent with status := "submitted" } = wS :=
  update_brackets_noop wS { wParent with status := "submitted" } (Or.inl (by decide))

/-- Helper for C7: every id handed out by allocIds is at least the
starting counter value. -/
theorem allocIds_lower (n : Nat) : ∀ (s : Int), ∀ x ∈ allocIds s n, s ≤ x := by
  induction n with
  | zero => intro s x hx; simp [allocIds] at hx
  | succ n ih =>
    intro s x hx
    simp only [allocIds, get_req_id, List.mem_cons] at hx
    rcases hx with hx | hx
    · omega
    · have := ih (s + 1) x hx
      omega

/-- C7: within a session, successive __get_req_id__ calls return
strictly increasing identifiers; in particular no identifier is
returned twice. -/
theorem req_ids_strictly_increasing (s : Int) (n : Nat) :
    (allocIds s n).Pairwise (· < ·) ∧ (allocIds s n).Nodup := by
  have hpw : ∀ (s : Int), (allocIds s n).Pairwise (· < ·) := by
    induction n with
    | zero => intro s; simp [allocIds]
    | succ n ih =>
      intro s
      simp only [allocIds, get_req_id]
      refine List.Pairwise.cons ?_ (ih (s + 1))
      intro x hx
      have := allocIds_lower n (s + 1) x hx
      omega
  exact ⟨hpw s, (hpw s).imp ne_of_lt⟩

/-- Helper for C10: along any interleaving of allocations and
next-valid-id reports, every issued id stays below the counter and the
issued list stays duplicate-free. -/
theorem runIds_invariant (evs : List IdEvent) :
    ∀ (n : Int) (issued : List Int),
      (∀ x ∈ issued, x < n) → issued.Nodup →
      (∀ x ∈ (runIds (n, issued) evs).2, x < (runIds (n, issued) evs).1) ∧
        (runIds (n, issued) evs).2.Nodup := by
  induction evs with
  | nil => intro n issued h1 h2; exact ⟨h1, h2⟩
  | cons e evs ih =>
    intro n issued h1 h2
    cases e with
    | alloc =>
      refine ih (n + 1) (issued ++ [n]) ?_ ?_
      · intro x hx
        rcases List.mem_append.mp hx with hx | hx
        · have := h1 x hx; omega
        · simp at hx; omega
      · refine List.Nodup.append h2 (by simp) ?_
        intro x hx hy
        have := h1 x hx
        simp at hy
        omega
    | nextValidId r =>
      refine ih (max n r) issued ?_ h2
      intro x hx
      have := h1 x hx
      omega

/-- C10: on_next_id sets the counter to max(current, reported), so the
counter never decreases on a report; consequently, from the initial
session state, no interleaving of allocations with duplicate or stale
next-valid-id reports ever issues the same request id twice. -/
theorem next_id_never_reissues (evs : List IdEvent) :
    (∀ (n : Int) (issued : List Int) (r : Int),
      idStep (n, issued) (IdEvent.nextValidId r) = (max n r, issued) ∧ n ≤ max n r) ∧
    (runIds (-1, []) evs).2.Nodup := by
  refine ⟨fun n issued r => ⟨rfl, le_max_left n r⟩, ?_⟩
  exact (runIds_invariant evs (-1) [] (by simp) (by simp)).2

/-- C4 counterexample: subscribing twice to eur/usd from the empty
state leaves an active subscription (stored id 0) after the first call,
yet the second call returns the fresh id 1, not the stored id, and a
second remote market-data subscription goes out (two remote calls
total).  This refutes the claim that a second subscribe call for an
already-subscribed instrument reuses the existing request id and
issues no further remote subscription. -/
theorem resubscribe_not_reused :
    ((req_tick_updates tickSubInit eurusd 0).2.market_data_ids (mdKey eurusd) = some 0) ∧
    (req_tick_updates (req_tick_updates tickSubInit eurusd 0).2 eurusd 1).1 ≠ 0 ∧
    (req_tick_updates (req_tick_updates tickSubInit eurusd 0).2 eurusd 1).2.remote_mkt_data_calls
      = [0, 1] := by
  refine ⟨?_, by decide, ?_⟩ <;> rfl

/-- C4 amended: req_tick_updates never consults the existing
subscription map; every call (also for an already-subscribed
instrument) returns the fresh counter value as its request id, issues
one more remote market-data subscription with that id, and overwrites
the instrument key entry with the new id. -/
theorem resubscribe_allocates_fresh (s : TickSubState) (c : Contract) (cb : Nat) :
    (req_tick_updates s c cb).1 = s.next_id ∧
    (req_tick_updates s c cb).2.next_id = s.next_id + 1 ∧
    (req_tick_updates s c cb).2.remote_mkt_data_calls
      = s.remote_mkt_data_calls ++ [s.next_id] ∧
    (req_tick_updates s c cb).2.market_data_ids (mdKey c) = some s.next_id := by
  refine ⟨rfl, rfl, rfl, ?_⟩
  simp [req_tick_updates, req_mkt_data, strUpdate]

/-- C8 counterexample: resolving the next-valid-id completion twice
(first with 7, then with 9) leaves the cell holding 7 and emits no
diagnostic: the second resolution attempt is a silent no-op, refuting
the claim that it produces an observable rejection or report. -/
theorem double_resolution_silent :
    next_valid_id (next_valid_id (some none) 7).1 9 = (some (some 7), []) := by
  rfl

/-- C8 amended: a resolution attempt on a completion that is absent or
already done is silently skipped by the is_future_valid guard: the cell
is unchanged and the handler emits no diagnostic on any path. -/
theorem double_resolution_noop (v : Int) (r : Int) :
    next_valid_id (some (some v)) r = (some (some v), []) ∧
    (∀ (fut : FutureCell) (q : Int), (next_valid_id fut q).2 = []) := by
  constructor
  · rfl
  · intro fut q
    unfold next_valid_id
    split <;> rfl

/-- Helper for C5: one incoming event either leaves the delivery queue
unchanged, or appends exactly one tick with bid > 0 and ask > bid. -/
theorem mdStep_queue (st : TickMergeState) (e : MdEvent) :
    (mdStep st e).queue = st.queue ∨
    ∃ t, (mdStep st e).queue = st.queue ++ [t] ∧ 0 < t.bid ∧ t.bid < t.ask := by
  cases e with
  | price tt p now =>
    simp only [mdStep, tick_price]
    repeat' split
    all_goals
      first
        | exact Or.inl rfl
        | (rename_i h; exact Or.inr ⟨_, rfl, h.1, h.2⟩)
  | size tt v now => exact Or.inl rfl

/-- Helper for C5: ticks in the queue satisfying the uncrossed-market
property is invariant under any event sequence. -/
theorem runMd_queue_invariant (evs : List MdEvent) :
    ∀ (st : TickMergeState),
      (∀ t ∈ st.queue, 0 < t.bid ∧ t.bid < t.ask) →
      ∀ t ∈ (runMd st evs).queue, 0 < t.bid ∧ t.bid < t.ask := by
  induction evs with
  | nil => intro st h; exact h
  | cons e evs ih =>
    intro st h
    refine ih (mdStep st e) ?_
    rcases mdStep_queue st e with heq | ⟨t, heq, h1, h2⟩
    · rw [heq]; exact h
    · rw [heq]
      intro x hx
      rcases List.mem_append.mp hx with hx | hx
      · exact h x hx
      · simp at hx
        rw [hx]
        exact ⟨h1, h2⟩

/-- C5: a merged tick is pushed to the delivery queue only when the
resulting snapshot has bid > 0 and ask strictly above bid: every event
either leaves the queue unchanged or appends one uncrossed tick (so an
update whose snapshot has ask less than or equal to bid is never
forwarded), and along any event sequence every delivered tick is
uncrossed. -/
theorem tick_merge_suppresses_crossed :
    (∀ (st : TickMergeState) (e : MdEvent),
      (mdStep st e).queue = st.queue ∨
      ∃ t, (mdStep st e).queue = st.queue ++ [t] ∧ 0 < t.bid ∧ t.bid < t.ask) ∧
    (∀ (t0 : Tick) (evs : List MdEvent),
      ∀ t ∈ (runMd { tick := t0, queue := [] } evs).queue, 0 < t.bid ∧ t.bid < t.ask) :=
  ⟨mdStep_queue, fun t0 evs => runMd_queue_invariant evs { tick := t0, queue := [] } (by simp)⟩

/-- Helper for C3: running a concatenation of event lists. -/
theorem runQ_append (pre post : List QEvent) :
    ∀ st, runQ st (pre ++ post) = runQ (runQ st pre) post := by
  induction pre with
  | nil => intro st; rfl
  | cons e pre ih => intro st; simp only [List.cons_append, runQ]; exact ih (qStep st e)

/-- Helper for C3: once the end-of-open-orders marker has been seen,
every later state still records it. -/
theorem endCalled_monotone (evs : List QEvent) :
    ∀ st, st.openOrderEndCalled = true → (runQ st evs).openOrderEndCalled = true := by
  induction evs with
  | nil => intro st h; exact h
  | cons e evs ih =>
    intro st h
    refine ih (qStep st e) ?_
    cases e with
    | openOrder rid =>
      simp only [qStep, open_order]
      split <;> exact h
    | openOrderEnd => rfl
    | orderStatus rid status =>
      simp only [qStep, order_status]
      split
      · exact h
      · split <;> exact h
    | execDetailsEnd =>
      simp only [qStep, exec_details_end]
      split <;> exact h

/-- Helper for C3: the executions future only becomes resolved through
an end-of-executions event. -/
theorem execsResolved_source (evs : List QEvent) :
    ∀ st, (runQ st evs).execsResolved = true →
      st.execsResolved = true ∨ QEvent.execDetailsEnd ∈ evs := by
  induction evs with
  | nil => intro st h; exact Or.inl h
  | cons e evs ih =>
    intro st h
    rcases ih (qStep st e) h with h1 | h1
    · cases e with
      | openOrder rid =>
        simp only [qStep, open_order] at h1
        split at h1 <;> simp_all
      | openOrderEnd => exact Or.inl h1
      | orderStatus rid status =>
        simp only [qStep, order_status] at h1
        split at h1
        · exact Or.inl h1
        · split at h1 <;> exact Or.inl h1
      | execDetailsEnd => simp
    · simp [h1]

/-- Helper for C3: the orders future is resolved by a step only when
the step is an order-status event, the end-of-open-orders marker was
already recorded, and after recording this status every id opened so
far carries a final (non-apipending) status. -/
theorem ordersResolved_source (st : QueryState) (e : QEvent)
    (hpre : st.ordersResolved = false)
    (hpost : (qStep st e).ordersResolved = true) :
    ∃ rid status, e = QEvent.orderStatus rid status ∧
      st.openOrderEndCalled = true ∧
      allStatusesFinal (qStep st e).openOrderIds = true := by
  cases e with
  | openOrder rid =>
    exfalso
    simp only [qStep, open_order] at hpost
    split at hpost <;> simp_all
  | openOrderEnd => exact absurd hpost (by simp [qStep, open_order_end, hpre])
  | orderStatus rid status =>
    refine ⟨rid, status, rfl, ?_, ?_⟩ <;>
      · simp only [qStep, order_status] at hpost ⊢
        split at hpost
        · simp_all
        · split at hpost
          · rename_i hcond
            simp_all [order_status]
          · simp_all
  | execDetailsEnd =>
    exfalso
    simp only [qStep, exec_details_end] at hpost
    split at hpost <;> simp_all

/-- Helper for C3: if the orders future flips from pending to resolved
along a run, there is a first event at which it flips. -/
theorem ordersResolved_flip (evs : List QEvent) :
    ∀ st, st.ordersResolved = false → (runQ st evs).ordersResolved = true →
      ∃ pre e post, evs = pre ++ e :: post ∧
        (runQ st pre).ordersResolved = false ∧
        (qStep (runQ st pre) e).ordersResolved = true := by
  induction evs with
  | nil => intro st h1 h2; rw [runQ] at h2; rw [h1] at h2; cases h2
  | cons e evs ih =>
    intro st h1 h2
    by_cases hmid : (qStep st e).ordersResolved = true
    · exact ⟨[], e, evs, rfl, h1, hmid⟩
    · have hmid' : (qStep st e).ordersResolved = false := by
        cases h : (qStep st e).ordersResolved
        · rfl
        · exact absurd h hmid
      obtain ⟨pre, e', post, heq, hf, ht⟩ := ih (qStep st e) hmid' h2
      exact ⟨e :: pre, e', post, by simp [heq], hf, ht⟩

/-- C3: the open-orders query (listOpenOrders awaits both the orders
future and the executions future; the adapter resolves them as in
order_status and exec_details_end) completes only when, in whatever
order the signals arrived: the end-of-executions marker was seen, and
at the moment the orders future was resolved the end-of-open-orders
marker had been seen and every request id opened during the query had
reported a non-apipending status. -/
theorem listOpenOrders_completion (ko : List Int) (evs : List QEvent)
    (h : queryComplete (runQ (queryStart ko) evs)) :
    (runQ (queryStart ko) evs).openOrderEndCalled = true ∧
    QEvent.execDetailsEnd ∈ evs ∧
    ∃ pre rid status post,
      evs = pre ++ QEvent.orderStatus rid status :: post ∧
      (runQ (queryStart ko) pre).ordersResolved = false ∧
      (runQ (queryStart ko) pre).openOrderEndCalled = true ∧
      allStatusesFinal
        (qStep (runQ (queryStart ko) pre) (QEvent.orderStatus rid status)).openOrderIds
        = true := by
  obtain ⟨hord, hexec⟩ := h
  have hexecSrc := execsResolved_source evs (queryStart ko) hexec
  have hexecMem : QEvent.execDetailsEnd ∈ evs := by
    rcases hexecSrc with h1 | h1
    · cases h1
    · exact h1
  obtain ⟨pre, e, post, heq, hf, ht⟩ :=
    ordersResolved_flip evs (queryStart ko) rfl hord
  obtain ⟨rid, status, herid, hend, hall⟩ :=
    ordersResolved_source (runQ (queryStart ko) pre) e hf ht
  subst herid
  refine ⟨?_, hexecMem, pre, rid, status, post, heq, hf, hend, hall⟩
  rw [heq, runQ_append]
  exact endCalled_monotone (QEvent.orderStatus rid status :: post) _ hend

/-- Witness for C3: the concrete arrival order wQEvents (executions
end first, then open order, end marker, final status) completes the
query, and the theorem yields the three conditions. -/
theorem listOpenOrders_completion_witness :
    (runQ (queryStart []) wQEvents).openOrderEndCalled = true ∧
    QEvent.execDetailsEnd ∈ wQEvents ∧
    ∃ pre rid status post,
      wQEvents = pre ++ QEvent.orderStatus rid status :: post ∧
      (runQ (queryStart []) pre).ordersResolved = false ∧
      (runQ (queryStart []) pre).openOrderEndCalled = true ∧
      allStatusesFinal
        (qStep (runQ (queryStart []) pre) (QEvent.orderStatus rid status)).openOrderIds
        = true :=
  listOpenOrders_completion [] wQEvents (by constructor <;> rfl)

/-- Helper for C6: every block of one day starts no earlier than the
day start, ends within the day span, and carries a bar count in
(0, MAX_BLOCK_SIZE]. -/
theorem cutDay_bounds (last_ms : Int) (total_bars : ℚ) :
    ∀ b ∈ cutDay last_ms total_bars,
      last_ms ≤ b.1 ∧ (b.1 : ℚ) ≤ (last_ms : ℚ) + total_bars * 1000 ∧
      0 < b.2 ∧ b.2 ≤ MAX_BLOCK_SIZE := by
  induction last_ms, total_bars using cutDay.induct with
  | case1 last_ms total_bars h ih =>
    intro b hb
    rw [cutDay, dif_pos h] at hb
    simp only [MAX_BLOCK_SIZE, BAR_SIZE_SECONDS, mul_one] at ih hb ⊢
    have hbars0 : (0 : ℚ) < min total_bars 1800 := lt_min h (by norm_num)
    have hfl : ((⌊min total_bars 1800 * 1000⌋ : Int) : ℚ) ≤ min total_bars 1800 * 1000 :=
      Int.floor_le _
    have hfl0 : (0 : Int) ≤ ⌊min total_bars 1800 * 1000⌋ :=
      Int.floor_nonneg.mpr (by nlinarith)
    have hminle : min total_bars 1800 ≤ total_bars := min_le_left _ _
    have hminub : min total_bars 1800 ≤ (1800 : ℚ) := min_le_right _ _
    rcases List.mem_cons.mp hb with hb | hb
    · subst hb
      refine ⟨by omega, ?_, hbars0, hminub⟩
      push_cast
      linarith
    · obtain ⟨ih1, ih2, ih3, ih4⟩ := ih b hb
      refine ⟨by omega, ?_, ih3, ih4⟩
      push_cast at ih2 ⊢
      linarith
  | case2 last_ms total_bars h =>
    intro b hb
    rw [cutDay, dif_neg h] at hb
    cases hb

/-- Helper for C6: with a whole-number bar total, every block of a day
ends strictly after the day start (each block spans at least one whole
1000 ms bar). -/
theorem cutDay_pos (last_ms : Int) (total_bars : ℚ) :
    (∃ n : ℤ, (n : ℚ) = total_bars) →
    ∀ b ∈ cutDay last_ms total_bars, last_ms < b.1 := by
  induction last_ms, total_bars using cutDay.induct with
  | case1 last_ms total_bars h ih =>
    rintro ⟨n, hn⟩ b hb
    rw [cutDay, dif_pos h] at hb
    simp only [MAX_BLOCK_SIZE, BAR_SIZE_SECONDS, mul_one] at ih hb
    have hn0 : 0 < n := by
      have : (0 : ℚ) < (n : ℚ) := by rw [hn]; exact h
      exact_mod_cast this
    have hn1 : (1 : ℚ) ≤ total_bars := by
      rw [← hn]
      exact_mod_cast hn0
    have hsp : (1000 : Int) ≤ ⌊min total_bars 1800 * 1000⌋ := by
      apply Int.le_floor.mpr
      have : (1 : ℚ) ≤ min total_bars 1800 := le_min hn1 (by norm_num)
      push_cast
      linarith
    rcases List.mem_cons.mp hb with hb | hb
    · subst hb; simp only; omega
    · have hint2 : ∃ m : ℤ, (m : ℚ) = total_bars - MAX_BLOCK_SIZE := by
        refine ⟨n - 1800, ?_⟩
        simp only [MAX_BLOCK_SIZE]
        push_cast
        linarith
      have := ih hint2 b hb
      omega
  | case2 last_ms total_bars h =>
    rintro - b hb
    rw [cutDay, dif_neg h] at hb
    cases hb

/-- Helper for C6: with a whole-number bar total, the blocks of one day
have strictly increasing end times. -/
theorem cutDay_pairwise (last_ms : Int) (total_bars : ℚ) :
    (∃ n : ℤ, (n : ℚ) = total_bars) →
    (cutDay last_ms total_bars).Pairwise (fun a b => a.1 < b.1) := by
  induction last_ms, total_bars using cutDay.induct with
  | case1 last_ms total_bars h ih =>
    rintro ⟨n, hn⟩
    rw [cutDay, dif_pos h]
    have hint2 : ∃ m : ℤ, (m : ℚ) = total_bars - MAX_BLOCK_SIZE := by
      refine ⟨n - 1800, ?_⟩
      simp only [MAX_BLOCK_SIZE]
      push_cast
      linarith
    refine List.Pairwise.cons ?_ (ih hint2)
    intro b hb
    exact cutDay_pos _ _ hint2 b hb
  | case2 last_ms total_bars h =>
    rintro -
    rw [cutDay, dif_neg h]
    exact List.Pairwise.nil

/-- Helper for C6: every kept day ends on a weekday (Monday=0 through
Friday=4), keeps the session span of the seed pair, and starts at or
after the range start. -/
theorem enumDays_mem (weekday : Int → Nat) (end_ms : Int) (first_ms last_ms : Int) :
    ∀ d ∈ enumDays weekday end_ms first_ms last_ms,
      weekday d.2 < 5 ∧ d.2 - d.1 = last_ms - first_ms ∧ first_ms ≤ d.1 := by
  induction first_ms, last_ms using enumDays.induct weekday end_ms with
  | case1 first_ms last_ms h ih =>
    intro d hd
    rw [enumDays, dif_pos h] at hd
    rcases List.mem_append.mp hd with hd | hd
    · split at hd
      · rename_i hwd
        simp only [List.mem_singleton] at hd
        subst hd
        exact ⟨hwd, rfl, le_refl _⟩
      · cases hd
    · obtain ⟨ih1, ih2, ih3⟩ := ih d hd
      simp only [DAY_MS] at ih2 ih3 ⊢
      exact ⟨ih1, by omega, by omega⟩
  | case2 first_ms last_ms h =>
    intro d hd
    rw [enumDays, dif_neg h] at hd
    cases hd

/-- Helper for C6: the kept days are separated by at least a full day
between consecutive day starts. -/
theorem enumDays_pairwise (weekday : Int → Nat) (end_ms : Int) (first_ms last_ms : Int) :
    (enumDays weekday end_ms first_ms last_ms).Pairwise
      (fun a b => a.1 + DAY_MS ≤ b.1) := by
  induction first_ms, last_ms using enumDays.induct weekday end_ms with
  | case1 first_ms last_ms h ih =>
    rw [enumDays, dif_pos h]
    split
    · simp only [List.singleton_append]
      refine List.Pairwise.cons ?_ ih
      intro d hd
      exact (enumDays_mem weekday end_ms (first_ms + DAY_MS) (last_ms + DAY_MS) d hd).2.2
    · simpa using ih
  | case2 first_ms last_ms h =>
    rw [enumDays, dif_neg h]
    exact List.Pairwise.nil

/-- Helper for C6: a range whose checked session ends all fall on
weekend days produces no kept day at all. -/
theorem enumDays_empty (weekday : Int → Nat) (end_ms : Int) (first_ms last_ms : Int) :
    (∀ k : ℕ, first_ms + k * DAY_MS < end_ms → 5 ≤ weekday (last_ms + k * DAY_MS)) →
    enumDays weekday end_ms first_ms last_ms = [] := by
  induction first_ms, last_ms using enumDays.induct weekday end_ms with
  | case1 first_ms last_ms h ih =>
    intro hall
    rw [enumDays, dif_pos h]
    have h0 : 5 ≤ weekday last_ms := by
      have := hall 0 (by simpa using h)
      simpa using this
    rw [if_neg (by omega), List.nil_append]
    apply ih
    intro k hk
    have harg : last_ms + DAY_MS + (k : Int) * DAY_MS = last_ms + ((k : ℕ) + 1 : ℕ) * DAY_MS := by
      push_cast
      ring
    rw [harg]
    apply hall (k + 1)
    have hk2 : first_ms + DAY_MS + (k : Int) * DAY_MS < end_ms := hk
    simp only [DAY_MS] at hk2 ⊢
    push_cast at hk2 ⊢
    linarith
  | case2 first_ms last_ms h =>
    intro hall
    rw [enumDays, dif_neg h]

/-- Helper for C6: concatenating the blocks of uniform-span,
day-separated days (span at most one day, a whole number of bars per
day) yields strictly increasing block end times. -/
theorem flat_blocks_pairwise (span_ms : Int)
    (hpos : 0 < span_ms) (hday : span_ms ≤ DAY_MS)
    (hint : ∃ m : ℤ, (m : ℚ) = ((span_ms : ℚ) / 1000) / BAR_SIZE_SECONDS) :
    ∀ (days : List (Int × Int)),
      (∀ d ∈ days, d.2 - d.1 = span_ms) →
      days.Pairwise (fun a b => a.1 + DAY_MS ≤ b.1) →
      (days.flatMap fun day =>
          cutDay day.1 ((((day.2 - day.1 : Int) : ℚ) / 1000) / BAR_SIZE_SECONDS)).Pairwise
        (fun a b => a.1 < b.1) := by
  intro days
  induction days with
  | nil => intro _ _; simp
  | cons d days ih =>
    intro hspan hpw
    rw [List.flatMap_cons, List.pairwise_append]
    have hd : d.2 - d.1 = span_ms := hspan d (List.mem_cons_self d days)
    refine ⟨?_, ?_, ?_⟩
    · apply cutDay_pairwise
      rw [hd]
      exact hint
    · exact ih (fun x hx => hspan x (List.mem_cons_of_mem d hx)) hpw.of_cons
    · intro x hx y hy
      rw [List.mem_flatMap] at hy
      obtain ⟨d2, hd2, hy⟩ := hy
      have hd2s : d2.2 - d2.1 = span_ms := hspan d2 (List.mem_cons_of_mem d hd2)
      have hsep : d.1 + DAY_MS ≤ d2.1 := (List.pairwise_cons.mp hpw).1 d2 hd2
      have hy1 : d2.1 < y.1 := by
        apply cutDay_pos d2.1 _ ?_ y hy
        rw [hd2s]
        exact hint
      have hx1 := (cutDay_bounds d.1 _ x hx).2.1
      have ht : ((((d.2 - d.1 : Int) : ℚ) / 1000) / BAR_SIZE_SECONDS) * 1000
          = ((span_ms : Int) : ℚ) := by
        rw [hd]
        simp only [BAR_SIZE_SECONDS, div_one]
        field_simp
      rw [ht] at hx1
      have hx2 : x.1 ≤ d.1 + span_ms := by
        have : (x.1 : ℚ) ≤ ((d.1 + span_ms : Int) : ℚ) := by push_cast at hx1 ⊢; linarith
        exact_mod_cast this
      simp only [DAY_MS] at hsep hday
      omega

/-- C6: for a valid session window (at least one minute, at most one
day), every block produced by create_bar_data lies inside some kept day
whose session end falls on a weekday and carries a bar count in
(0, MAX_BLOCK_SIZE]; the block end times are strictly increasing
(chronological within and across days); and a range whose session ends
all fall on weekend days produces no blocks at all. -/
theorem create_bar_data_spec (weekday : Int → Nat) (start_ms end_ms span_min : Int)
    (h1 : 1 ≤ span_min) (h2 : span_min * 60000 ≤ 86400000) :
    (∀ b ∈ create_bar_data weekday start_ms end_ms span_min,
      0 < b.2 ∧ b.2 ≤ MAX_BLOCK_SIZE ∧
      ∃ d ∈ enumDays weekday end_ms start_ms (start_ms + span_min * 60 * 1000),
        weekday d.2 < 5 ∧ d.1 ≤ b.1 ∧ b.1 ≤ d.2) ∧
    (create_bar_data weekday start_ms end_ms span_min).Pairwise (fun a b => a.1 < b.1) ∧
    ((∀ k : ℕ, start_ms + k * DAY_MS < end_ms →
        5 ≤ weekday (start_ms + span_min * 60 * 1000 + k * DAY_MS)) →
      create_bar_data weekday start_ms end_ms span_min = []) := by
  have hint : ∃ m : ℤ, (m : ℚ)
      = (((span_min * 60 * 1000 : Int) : ℚ) / 1000) / BAR_SIZE_SECONDS := by
    refine ⟨span_min * 60, ?_⟩
    simp only [BAR_SIZE_SECONDS, div_one]
    push_cast
    field_simp
  refine ⟨?_, ?_, ?_⟩
  · intro b hb
    simp only [create_bar_data, List.mem_flatMap] at hb
    obtain ⟨d, hd, hbd⟩ := hb
    obtain ⟨hw, hsp, hge⟩ :=
      enumDays_mem weekday end_ms start_ms (start_ms + span_min * 60 * 1000) d hd
    obtain ⟨hb1, hb2, hb3, hb4⟩ := cutDay_bounds d.1 _ b hbd
    refine ⟨hb3, hb4, d, hd, hw, hb1, ?_⟩
    have ht : ((((d.2 - d.1 : Int) : ℚ) / 1000) / BAR_SIZE_SECONDS) * 1000
        = ((d.2 - d.1 : Int) : ℚ) := by
      simp only [BAR_SIZE_SECONDS, div_one]
      field_simp
    rw [ht] at hb2
    have : (b.1 : ℚ) ≤ ((d.2 : Int) : ℚ) := by push_cast at hb2 ⊢; linarith
    exact_mod_cast this
  · simp only [create_bar_data]
    refine flat_blocks_pairwise (span_min * 60 * 1000) (by omega)
      (by simp only [DAY_MS]; omega) hint _ ?_ ?_
    · intro d hd
      have := (enumDays_mem weekday end_ms start_ms
        (start_ms + span_min * 60 * 1000) d hd).2.1
      omega
    · exact enumDays_pairwise weekday end_ms start_ms (start_ms + span_min * 60 * 1000)
  · intro hall
    simp only [create_bar_data]
    rw [enumDays_empty weekday end_ms start_ms (start_ms + span_min * 60 * 1000) hall]
    rfl

/-- Witness for C6: a two-day range with a 390-minute session and an
all-weekday calendar satisfies the hypotheses; the blocks are
chronologically ordered with bar counts in (0, MAX_BLOCK_SIZE]. -/
theorem create_bar_data_spec_witness :
    (create_bar_data (fun _ => 0) 0 172800000 390).Pairwise (fun a b => a.1 < b.1) ∧
    (∀ b ∈ create_bar_data (fun _ => 0) 0 172800000 390,
      0 < b.2 ∧ b.2 ≤ MAX_BLOCK_SIZE) := by
  have h := create_bar_data_spec (fun _ => 0) 0 172800000 390 (by decide) (by decide)
  exact ⟨h.2.1, fun b hb => ⟨(h.1 b hb).1, (h.1 b hb).2.1⟩⟩

end IbClient
